import Mathlib

/-
  fsnotify (fsnotify.go): the Op vocabulary, the Event value with its
  rendering and predicates, and the Watcher helpers Watch, RemoveWatch and
  Count, embedded as Lean definitions, followed by the theorems that settle
  the claims of the specification against them.

  Conventions of the embedding
  * Go `uint32` (and `Op`, whose underlying type is `uint32`) is a natural
    number; the values the program can hold are those below 2^32.  Bitwise
    AND and OR never leave that range, so they are the operations of `Nat`;
    a conversion is written with an explicit `% 2^32`.
  * A Go `string` is a Lean string, that is, text that is valid UTF-8.
    `len` is the length in bytes and `s[i:]` slices at a byte offset.
  * A method with a pointer receiver returns its result together with the
    receiver after the call.
  * A run-time panic is the value `none`.
  * The Watcher type and its method Add are in the platform files; they are
    modelled from the specification, and the backend is a parameter.
-/

/-- Go `string`; the short name also keeps the type apart from the method `Event.String`. -/
abbrev Str := String

/-- Op describes a set of file operations (`type Op uint32`). -/
abbrev Op := Nat

/-- The conversion `uint32(x)` of an integer value. -/
def uint32 (x : Nat) : Nat := x % 2 ^ 32

/-- The conversion `Op(x)` of an integer value; the underlying type of Op is uint32. -/
def toOp (x : Nat) : Op := x % 2 ^ 32

/-- Constant `Create Op = 1 << iota` with iota = 0. -/
def Create : Op := 1 <<< 0

/-- Constant Write, `1 << iota` with iota = 1. -/
def Write : Op := 1 <<< 1

/-- Constant Remove, `1 << iota` with iota = 2. -/
def Remove : Op := 1 <<< 2

/-- Constant Rename, `1 << iota` with iota = 3. -/
def Rename : Op := 1 <<< 3

/-- Constant Chmod, `1 << iota` with iota = 4. -/
def Chmod : Op := 1 <<< 4

/-- Event represents a single file system notification. -/
structure Event where
  /-- Relative path to the file or directory. -/
  Name : Str
  /-- File operation that triggered the event. -/
  Op : Op
deriving DecidableEq, Repr

/-- NewEvent builds an Event from an operation mask and a name. -/
def NewEvent (op : Op) (name : Str) : Event :=
  { Name := name, Op := op }

/-- The Go slice expression `s[i:]` on a string: the offset counts bytes, and an
offset beyond `len(s)` is a run-time panic.  The only string sliced in this
file is ASCII, where byte offsets and character offsets are the same. -/
def sliceFrom (s : Str) (i : Nat) : Option Str :=
  if i ≤ s.utf8ByteSize then some (s.extract ⟨i⟩ s.endPos) else none

/-- One step of the loop of Go's `strconv.Quote` (the `%q` verb), for one rune
of a valid UTF-8 string: the double quote and the backslash are always
backslashed, a printable ASCII rune (space up to the tilde) is copied, and the
text for any other rune (a non-ASCII rune copied when the Unicode tables of the
Go release call it printable, an escape sequence otherwise) is `esc r`. -/
def appendEscapedRune (esc : Char → Str) (buf : Str) (r : Char) : Str :=
  if r = '"' ∨ r = '\\' then
    (buf.push '\\').push r
  else if 0x20 ≤ r.toNat ∧ r.toNat ≤ 0x7E then
    buf.push r
  else
    buf ++ esc r

/-- Go's `strconv.Quote`: an opening double quote, every rune of `s` through
`appendEscapedRune`, a closing double quote. -/
def Quote (esc : Char → Str) (s : Str) : Str :=
  (s.data.foldl (appendEscapedRune esc) "\"").push '"'

/-- Go's `fmt.Sprintf` at the format `%q: %s` with two string operands: the
first quoted, the second verbatim. -/
def Sprintf (esc : Char → Str) (a b : Str) : Str :=
  Quote esc a ++ ": " ++ b

/-- String returns a string representation of the event in the form
`"file": REMOVE|WRITE|...`. -/
def Event.String (esc : Char → Str) (e : Event) : Option Str := do
  let mut events : Str := ""
  if e.Op &&& Create == Create then
    events := events ++ "|CREATE"
  if e.Op &&& Remove == Remove then
    events := events ++ "|REMOVE"
  if e.Op &&& Write == Write then
    events := events ++ "|WRITE"
  if e.Op &&& Rename == Rename then
    events := events ++ "|RENAME"
  if e.Op &&& Chmod == Chmod then
    events := events ++ "|CHMOD"
  if events.utf8ByteSize > 0 then
    events ← sliceFrom events 1
  return Sprintf esc e.Name events

/-- OpVar returns e.Op as uint32; the receiver is a pointer, so the event after
the call is returned as well. -/
def Event.OpVar (e : Event) : Nat × Event :=
  (uint32 e.Op, e)

/-- IsDelete. -/
def Event.IsDelete (e : Event) : Bool :=
  if e.Op &&& Remove == Remove then true else false

/-- IsChmod. -/
def Event.IsChmod (e : Event) : Bool :=
  if e.Op &&& Chmod == Chmod then true else false

/-- IsRename. -/
def Event.IsRename (e : Event) : Bool :=
  if e.Op &&& Rename == Rename then true else false

/-- IsWrite. -/
def Event.IsWrite (e : Event) : Bool :=
  if e.Op &&& Write == Write then true else false

/-- IsCreate. -/
def Event.IsCreate (e : Event) : Bool :=
  if e.Op &&& Create == Create then true else false

/-- IsModify. -/
def Event.IsModify (e : Event) : Bool :=
  if e.IsRename || e.IsWrite || e.IsCreate then true else false

/-- Modelled from the spec: the declaration of the Watcher type is in the
platform files, which are not part of the source at hand.  The field that
fsnotify.go reads is `watches`, the watch registry: a map from a registered
path to the backend-specific handle of its subscription, with unique keys and
no meaningful order.  `H` is the type of the handles. -/
structure Watcher (H : Type) where
  /-- The registry, a Go map keyed by path. -/
  watches : AList (fun _ : Str => H)

/-- The Go builtin `len` on a map: the number of its entries. -/
def mapLen {H : Type} (m : AList (fun _ : Str => H)) : Int :=
  (m.entries.length : Int)

/-- Watch a given file path.  `Add` is the platform's method `(*Watcher).Add`,
defined in the platform files; an `error` result is `none` for nil. -/
def Watcher.Watch {H E : Type} (Add : Watcher H → Str → Option E × Watcher H)
    (w : Watcher H) (path : Str) : Option E × Watcher H :=
  Add w path

/-- Remove a watch on a file.  `Remove` is the platform's method
`(*Watcher).Remove`, defined in the platform files. -/
def Watcher.RemoveWatch {H E : Type} (Remove : Watcher H → Str → Option E × Watcher H)
    (w : Watcher H) (path : Str) : Option E × Watcher H :=
  Remove w path

/-- Count returns the watching path count; the receiver is a pointer, so the
watcher after the call is returned as well. -/
def Watcher.Count {H : Type} (w : Watcher H) : Int × Watcher H :=
  (mapLen w.watches, w)

/-- The claim's reading of a bit being set: the AND with the constant is not zero. -/
def bitSet (op c : Op) : Bool := op &&& c != 0

/-- The operation names in the order the specification fixes for the rendering,
each with its constant. -/
def opTable : List (Str × Op) :=
  [("CREATE", Create), ("REMOVE", Remove), ("WRITE", Write), ("RENAME", Rename),
   ("CHMOD", Chmod)]

/-- The operation portion as the specification words it: the names of the set
bits, in the order of `opTable`, joined by a single `|`. -/
def specOpPortion (op : Op) : Str :=
  "|".intercalate ((opTable.filter (fun p => bitSet op p.2)).map Prod.fst)

/-- A name made only of printable ASCII characters other than the double quote
and the backslash. -/
def PlainName (s : Str) : Prop :=
  ∀ c ∈ s.data, (0x20 ≤ c.toNat ∧ c.toNat ≤ 0x7E) ∧ c ≠ '"' ∧ c ≠ '\\'

instance (s : Str) : Decidable (PlainName s) := by
  unfold PlainName; infer_instance

/-- The accumulated string `events` of `Event.String` as it stands after the five
tests and before the slice: the first part of the body of the method. -/
def Event.accumulated (e : Event) : Str := Id.run do
  let mut events : Str := ""
  if e.Op &&& Create == Create then
    events := events ++ "|CREATE"
  if e.Op &&& Remove == Remove then
    events := events ++ "|REMOVE"
  if e.Op &&& Write == Write then
    events := events ++ "|WRITE"
  if e.Op &&& Rename == Rename then
    events := events ++ "|RENAME"
  if e.Op &&& Chmod == Chmod then
    events := events ++ "|CHMOD"
  return events

/-- The rest of the body of `Event.String`, from the accumulated string on: the
guarded slice and the formatting. -/
def Event.finish (esc : Char → Str) (e : Event) (events : Str) : Option Str :=
  (if events.utf8ByteSize > 0 then sliceFrom events 1 else some events).map
    (Sprintf esc e.Name)

/-- The operation portion of the rendering: the text of `Event.String` after the
quoted name, the colon and the space. -/
def Event.operationPortion (esc : Char → Str) (e : Event) : Option Str :=
  (Event.String esc e).map (fun s => s.drop ((Quote esc e.Name).length + 2))

/-- Splitting a text at every occurrence of a separator character, on character
lists.  As Go's `strings.Split` does, it returns one piece more than there are
separators, so that the empty text splits into the single empty piece. -/
def splitChars (sep : Char) : List Char → List (List Char)
  | [] => [[]]
  | c :: cs =>
    if c = sep then [] :: splitChars sep cs
    else
      match splitChars sep cs with
      | [] => [[c]]
      | t :: ts => (c :: t) :: ts

/-- The tokens of a string split at a separator character. -/
def Split (s : Str) (sep : Char) : List Str :=
  (splitChars sep s.data).map String.mk

/-- The number of the five single-bit predicates that are true of an event. -/
def truePredicates (e : Event) : Nat :=
  [e.IsCreate, e.IsDelete, e.IsWrite, e.IsRename, e.IsChmod].count true

/-- The operation portion as a function of the five bits, in the rendering order
Create, Remove, Write, Rename, Chmod. -/
def portionOfBits (c r w n m : Bool) : Str :=
  "|".intercalate
    ((if c then ["CREATE"] else []) ++ (if r then ["REMOVE"] else [])
      ++ (if w then ["WRITE"] else []) ++ (if n then ["RENAME"] else [])
      ++ (if m then ["CHMOD"] else []))

/-- Modelled from the spec: the error taxonomy of section 7. -/
inductive WatchError where
  | AlreadyWatching
  | NotWatching
  | WatcherClosed
  | AlreadyClosed
  | BackendUnavailable
  | BackendFailure
  | MalformedNotification
deriving DecidableEq, Repr

/-- Modelled from the spec: the method `(*Watcher).Add` is in the platform files,
which are not part of the source at hand.  On a running watcher, Add fails with
AlreadyWatching when the path is already in the registry; otherwise it issues
the subscribe command to the backend and inserts the entry only when the
backend confirms, so that a rejected path leaves the registry as it was.
`Subscribe` is the backend's `Subscribe(path) -> handle | error`. -/
def Watcher.Add {H : Type} (Subscribe : Str → Except WatchError H)
    (w : Watcher H) (path : Str) : Option WatchError × Watcher H :=
  if path ∈ w.watches.keys then
    (some WatchError.AlreadyWatching, w)
  else
    match Subscribe path with
    | Except.ok h => (none, { watches := w.watches.insert path h })
    | Except.error err => (some err, w)

/-- A sequence of calls of one registering method, one per path and in order,
with no other call in between: the errors returned and the watcher at the end. -/
def runAdds {H E : Type} (add : Watcher H → Str → Option E × Watcher H) :
    Watcher H → List Str → List (Option E) × Watcher H
  | w, [] => ([], w)
  | w, p :: ps =>
    ((add w p).1 :: (runAdds add (add w p).2 ps).1, (runAdds add (add w p).2 ps).2)

/-- A fresh watcher: the registry is empty. -/
def Watcher.fresh (H : Type) : Watcher H := { watches := ∅ }

/-- The tokens of the rendering: the operation portion split at `|`. -/
def Event.tokens (esc : Char → Str) (e : Event) : Option (List Str) :=
  (Event.operationPortion esc e).map (fun p => Split p '|')

/-- The agreement of rendering and predicates as the claim words it: each name is
a token exactly when its predicate is true, no other token occurs, no token
occurs twice, and there are as many tokens as true predicates. -/
def tokensAgree (esc : Char → Str) (e : Event) : Prop :=
  ∃ toks, Event.tokens esc e = some toks
    ∧ ("CREATE" ∈ toks ↔ e.IsCreate = true)
    ∧ ("REMOVE" ∈ toks ↔ e.IsDelete = true)
    ∧ ("WRITE" ∈ toks ↔ e.IsWrite = true)
    ∧ ("RENAME" ∈ toks ↔ e.IsRename = true)
    ∧ ("CHMOD" ∈ toks ↔ e.IsChmod = true)
    ∧ (∀ t ∈ toks, t ∈ ["CREATE", "REMOVE", "WRITE", "RENAME", "CHMOD"])
    ∧ toks.Nodup
    ∧ toks.length = truePredicates e

/-! Bit lemmas: the test `op & c == c` of the source and the test `op & c != 0`
of the claims are both the bit test when `c` is a single bit. -/

theorem and_two_pow_eq_iff (op k : Nat) : op &&& 2 ^ k = 2 ^ k ↔ op.testBit k = true := by
  constructor
  · intro h
    have := congrArg (fun x => x.testBit k) h
    simpa [Nat.testBit_two_pow_self] using this
  · intro h
    apply Nat.eq_of_testBit_eq
    intro i
    rw [Nat.testBit_and, Nat.testBit_two_pow]
    by_cases hki : k = i
    · subst hki; simp [h]
    · simp [hki]

theorem and_two_pow_ne_zero_iff (op k : Nat) : op &&& 2 ^ k ≠ 0 ↔ op.testBit k = true := by
  constructor
  · intro h
    by_contra hb
    apply h
    apply Nat.eq_of_testBit_eq
    intro i
    rw [Nat.testBit_and, Nat.testBit_two_pow]
    by_cases hki : k = i
    · subst hki; simp at hb; simp [hb]
    · simp [hki]
  · intro h h0
    have := congrArg (fun x => x.testBit k) h0
    simp [Nat.testBit_two_pow_self, h] at this

theorem beq_const (op k : Nat) : (op &&& 2 ^ k == 2 ^ k) = op.testBit k := by
  rw [Bool.eq_iff_iff, beq_iff_eq, and_two_pow_eq_iff]

theorem bitSet_const (op k : Nat) : bitSet op (2 ^ k) = op.testBit k := by
  unfold bitSet
  rw [Bool.eq_iff_iff, bne_iff_ne, and_two_pow_ne_zero_iff]

theorem Create_eq : Create = 2 ^ 0 := by decide
theorem Write_eq : Write = 2 ^ 1 := by decide
theorem Remove_eq : Remove = 2 ^ 2 := by decide
theorem Rename_eq : Rename = 2 ^ 3 := by decide
theorem Chmod_eq : Chmod = 2 ^ 4 := by decide

/-- The rendering, for every event: case analysis on the five bits. -/
theorem String_eq (esc : Char → Str) (e : Event) :
    Event.String esc e = some (Quote esc e.Name ++ ": " ++ specOpPortion e.Op) := by
  unfold Event.String specOpPortion opTable
  simp only [List.filter, Create_eq, Write_eq, Remove_eq, Rename_eq, Chmod_eq, beq_const, bitSet_const]
  cases e.Op.testBit 0 <;> cases e.Op.testBit 1 <;> cases e.Op.testBit 2 <;>
    cases e.Op.testBit 3 <;> cases e.Op.testBit 4 <;> rfl

/-- Quoting copies a run of plain characters. -/
theorem foldl_plain (esc : Char → Str) (l : List Char)
    (h : ∀ c ∈ l, (0x20 ≤ c.toNat ∧ c.toNat ≤ 0x7E) ∧ c ≠ '"' ∧ c ≠ '\\') (buf : Str) :
    l.foldl (appendEscapedRune esc) buf = buf ++ ⟨l⟩ := by
  induction l generalizing buf with
  | nil => exact String.ext (by simp)
  | cons c t ih =>
    have hc := h c (List.mem_cons_self c t)
    have ht : ∀ d ∈ t, (0x20 ≤ d.toNat ∧ d.toNat ≤ 0x7E) ∧ d ≠ '"' ∧ d ≠ '\\' :=
      fun d hd => h d (List.mem_cons_of_mem c hd)
    have step : appendEscapedRune esc buf c = buf.push c := by
      unfold appendEscapedRune
      rw [if_neg (by intro hq; rcases hq with hq | hq; exact hc.2.1 hq; exact hc.2.2 hq),
        if_pos hc.1]
    rw [List.foldl_cons, step, ih ht]
    exact String.ext (by simp)

theorem Quote_plain (esc : Char → Str) (s : Str) (h : PlainName s) :
    Quote esc s = "\"" ++ s ++ "\"" := by
  unfold Quote
  rw [foldl_plain esc s.data h]
  exact String.ext (by simp)

theorem specOpPortion_edges (op : Op) :
    (specOpPortion op).data.head? ≠ some '|' ∧ (specOpPortion op).data.getLast? ≠ some '|' := by
  unfold specOpPortion opTable
  simp only [List.filter, Create_eq, Write_eq, Remove_eq, Rename_eq, Chmod_eq, bitSet_const]
  cases op.testBit 0 <;> cases op.testBit 1 <;> cases op.testBit 2 <;>
    cases op.testBit 3 <;> cases op.testBit 4 <;> decide

/-- The quoting model on a name with a double quote, a backslash and a newline,
and a mask with an undefined bit. -/
theorem String_escaped_example :
    Event.String (fun _ => "?") { Name := "a\"b\\c\n", Op := Write ||| Remove ||| 64 }
      = some "\"a\\\"b\\\\c?\": REMOVE|WRITE" := by
  decide

theorem pred_eq_testBit (op k : Nat) :
    (if (op &&& 2 ^ k == 2 ^ k) = true then true else false) = op.testBit k := by
  rw [beq_const]; cases op.testBit k <;> rfl

/-- C5: the five Op constants are the disjoint single bits 1, 2, 4, 8 and 16: each
is a power of two, any two distinct ones have bitwise AND 0, and the bitwise OR
of all five is 31. -/
theorem Op_constants_disjoint_bits :
    (Create = 1 ∧ Write = 2 ∧ Remove = 4 ∧ Rename = 8 ∧ Chmod = 16)
    ∧ (Create = 2 ^ 0 ∧ Write = 2 ^ 1 ∧ Remove = 2 ^ 2 ∧ Rename = 2 ^ 3 ∧ Chmod = 2 ^ 4)
    ∧ (∀ a ∈ [Create, Write, Remove, Rename, Chmod],
        ∀ b ∈ [Create, Write, Remove, Rename, Chmod], a ≠ b → a &&& b = 0)
    ∧ Create ||| Write ||| Remove ||| Rename ||| Chmod = 31 := by
  decide

/-- C3: each single-bit predicate is true exactly when its bit is set in e.Op,
and it has the same value on any event e2, of whatever name and other bits, that
agrees with e on that one bit. -/
theorem predicates_iff_bit (e e2 : Event) :
    (e.IsCreate = true ↔ e.Op &&& Create ≠ 0)
    ∧ (e.IsWrite = true ↔ e.Op &&& Write ≠ 0)
    ∧ (e.IsDelete = true ↔ e.Op &&& Remove ≠ 0)
    ∧ (e.IsRename = true ↔ e.Op &&& Rename ≠ 0)
    ∧ (e.IsChmod = true ↔ e.Op &&& Chmod ≠ 0)
    ∧ (e.Op &&& Create = e2.Op &&& Create → e.IsCreate = e2.IsCreate)
    ∧ (e.Op &&& Write = e2.Op &&& Write → e.IsWrite = e2.IsWrite)
    ∧ (e.Op &&& Remove = e2.Op &&& Remove → e.IsDelete = e2.IsDelete)
    ∧ (e.Op &&& Rename = e2.Op &&& Rename → e.IsRename = e2.IsRename)
    ∧ (e.Op &&& Chmod = e2.Op &&& Chmod → e.IsChmod = e2.IsChmod) := by
  unfold Event.IsCreate Event.IsWrite Event.IsDelete Event.IsRename Event.IsChmod
  refine ⟨?_, ?_, ?_, ?_, ?_, ?_, ?_, ?_, ?_, ?_⟩
  · rw [Create_eq, pred_eq_testBit, and_two_pow_ne_zero_iff]
  · rw [Write_eq, pred_eq_testBit, and_two_pow_ne_zero_iff]
  · rw [Remove_eq, pred_eq_testBit, and_two_pow_ne_zero_iff]
  · rw [Rename_eq, pred_eq_testBit, and_two_pow_ne_zero_iff]
  · rw [Chmod_eq, pred_eq_testBit, and_two_pow_ne_zero_iff]
  · intro h; rw [h]
  · intro h; rw [h]
  · intro h; rw [h]
  · intro h; rw [h]
  · intro h; rw [h]

/-- Witness of C3: two events of different names and different other bits that
agree on the Create bit. -/
theorem predicates_iff_bit_witness :
    (⟨"a", 3⟩ : Event).Op &&& Create = (⟨"b", 37⟩ : Event).Op &&& Create
    ∧ Event.IsCreate ⟨"a", 3⟩ = Event.IsCreate ⟨"b", 37⟩ :=
  ⟨by decide, (predicates_iff_bit ⟨"a", 3⟩ ⟨"b", 37⟩).2.2.2.2.2.1 (by decide)⟩

theorem IsModify_eq (e : Event) :
    e.IsModify = (e.Op.testBit 3 || e.Op.testBit 1 || e.Op.testBit 0) := by
  unfold Event.IsModify Event.IsCreate Event.IsWrite Event.IsRename
  rw [Create_eq, Write_eq, Rename_eq, pred_eq_testBit, pred_eq_testBit, pred_eq_testBit]
  cases e.Op.testBit 3 <;> cases e.Op.testBit 1 <;> cases e.Op.testBit 0 <;> rfl

theorem lor_eq_zero_iff (a b : Nat) : a ||| b = 0 ↔ a = 0 ∧ b = 0 := by
  constructor
  · intro h
    have hb : ∀ i, (a.testBit i || b.testBit i) = false := fun i => by
      rw [← Nat.testBit_or, h, Nat.zero_testBit]
    constructor
    · exact Nat.zero_of_testBit_eq_false fun i => (Bool.or_eq_false_iff.mp (hb i)).1
    · exact Nat.zero_of_testBit_eq_false fun i => (Bool.or_eq_false_iff.mp (hb i)).2
  · rintro ⟨rfl, rfl⟩
    rfl

theorem and_eleven_ne_zero_iff (op : Nat) :
    op &&& (Create ||| Write ||| Rename) ≠ 0
      ↔ (op.testBit 3 || op.testBit 1 || op.testBit 0) = true := by
  have h11 : Create ||| Write ||| Rename = 2 ^ 3 ||| 2 ^ 1 ||| 2 ^ 0 := by decide
  rw [h11, Nat.and_or_distrib_left, Nat.and_or_distrib_left]
  have h3 := and_two_pow_ne_zero_iff op 3
  have h1 := and_two_pow_ne_zero_iff op 1
  have h0 := and_two_pow_ne_zero_iff op 0
  simp only [Bool.or_eq_true, ← h3, ← h1, ← h0, ne_eq, lor_eq_zero_iff]
  tauto

theorem subset_remove_chmod (op : Nat)
    (h : (op &&& 31) &&& (Remove ||| Chmod) = op &&& 31) :
    op.testBit 3 = false ∧ op.testBit 1 = false ∧ op.testBit 0 = false := by
  have key : ∀ i, (31 : Nat).testBit i = true → (Remove ||| Chmod).testBit i = false →
      op.testBit i = false := by
    intro i h31 h20
    have := congrArg (fun x => x.testBit i) h
    simp only [Nat.testBit_and, h31, h20, Bool.and_true, Bool.and_false] at this
    exact this.symm
  exact ⟨key 3 (by decide) (by decide), key 1 (by decide) (by decide),
    key 0 (by decide) (by decide)⟩

/-- C4: IsModify is true exactly when at least one of the Create, Write and
Rename bits is set, that is when e.Op AND (Create|Write|Rename) is not zero; so it
is false when the defined bits of e.Op all lie within Remove|Chmod, false at
Op = 0, and true at Remove|Create. -/
theorem IsModify_iff (e : Event) :
    (e.IsModify = true ↔ e.Op &&& (Create ||| Write ||| Rename) ≠ 0)
    ∧ (e.IsModify = true ↔
        (e.Op &&& Create ≠ 0 ∨ e.Op &&& Write ≠ 0 ∨ e.Op &&& Rename ≠ 0))
    ∧ ((e.Op &&& 31) &&& (Remove ||| Chmod) = e.Op &&& 31 → e.IsModify = false)
    ∧ Event.IsModify { Name := e.Name, Op := 0 } = false
    ∧ Event.IsModify { Name := e.Name, Op := Remove ||| Create } = true := by
  refine ⟨?_, ?_, ?_, ?_, ?_⟩
  · rw [IsModify_eq, and_eleven_ne_zero_iff]
  · rw [IsModify_eq, Create_eq, Write_eq, Rename_eq, and_two_pow_ne_zero_iff,
      and_two_pow_ne_zero_iff, and_two_pow_ne_zero_iff]
    simp only [Bool.or_eq_true]
    tauto
  · intro h
    obtain ⟨h3, h1, h0⟩ := subset_remove_chmod e.Op h
    rw [IsModify_eq, h3, h1, h0]
    rfl
  · rw [IsModify_eq]
    show ((0 : Nat).testBit 3 || (0 : Nat).testBit 1 || (0 : Nat).testBit 0) = false
    decide
  · rw [IsModify_eq]
    show ((Remove ||| Create).testBit 3 || (Remove ||| Create).testBit 1
      || (Remove ||| Create).testBit 0) = true
    decide

/-- Witness of C4: an event with the Remove and Chmod bits and one undefined bit. -/
theorem IsModify_iff_witness :
    ((52 : Nat) &&& 31) &&& (Remove ||| Chmod) = 52 &&& 31
    ∧ Event.IsModify { Name := "/tmp/f", Op := 52 } = false :=
  ⟨by decide, (IsModify_iff { Name := "/tmp/f", Op := 52 }).2.2.1 (by decide)⟩

/-- C6: NewEvent is total and stores both operands as they are: the Name is the
given name and the Op is the given mask, whatever its bits; for instance
NewEvent(Create|Write, "/tmp/newdir") has Name "/tmp/newdir" and Op 3. -/
theorem NewEvent_fields (op : Op) (name : Str) :
    NewEvent op name = { Name := name, Op := op }
    ∧ (NewEvent op name).Name = name
    ∧ (NewEvent op name).Op = op
    ∧ (NewEvent (Create ||| Write) "/tmp/newdir").Name = "/tmp/newdir"
    ∧ (NewEvent (Create ||| Write) "/tmp/newdir").Op = 3 :=
  ⟨rfl, rfl, rfl, rfl, by decide⟩

/-- C8: for an event whose Op is a uint32 value, OpVar returns uint32(e.Op), which
is e.Op itself bit for bit; converting it back to Op gives e.Op; on
NewEvent(e.Op, name) it returns e.Op; and the event is unchanged by the call. -/
theorem OpVar_whole_mask (e : Event) (h : e.Op < 2 ^ 32) :
    e.OpVar.1 = uint32 e.Op
    ∧ e.OpVar.1 = e.Op
    ∧ (∀ i, e.OpVar.1.testBit i = e.Op.testBit i)
    ∧ toOp e.OpVar.1 = e.Op
    ∧ (∀ name : Str, (NewEvent e.Op name).OpVar.1 = e.Op)
    ∧ e.OpVar.2 = e := by
  have hmod : e.Op % 2 ^ 32 = e.Op := Nat.mod_eq_of_lt h
  have h1 : e.OpVar.1 = e.Op := by
    show uint32 e.Op = e.Op
    unfold uint32
    exact hmod
  refine ⟨rfl, h1, fun i => by rw [h1], ?_, fun name => ?_, rfl⟩
  · rw [h1]; unfold toOp; exact hmod
  · show uint32 e.Op = e.Op
    unfold uint32
    exact hmod

/-- Witness of C8: the event of mask 2^32 - 1, all thirty-two bits set. -/
theorem OpVar_whole_mask_witness :
    (4294967295 : Nat) < 2 ^ 32
    ∧ (Event.OpVar { Name := "/tmp/f", Op := 4294967295 }).1 = 4294967295 :=
  ⟨by decide, (OpVar_whole_mask { Name := "/tmp/f", Op := 4294967295 } (by decide)).2.1⟩

/-- C1: for every event and every name, String returns the quoted name, a colon
and a space, and then exactly the names of the set bits among the five, in the
order CREATE, REMOVE, WRITE, RENAME, CHMOD, joined by single `|`; that portion
neither starts nor ends with `|`; and Op = Write|Remove renders
`REMOVE|WRITE`. -/
theorem String_operation_portion (esc : Char → Str) (e : Event) :
    Event.String esc e = some (Quote esc e.Name ++ ": " ++ specOpPortion e.Op)
    ∧ (specOpPortion e.Op).data.head? ≠ some '|'
    ∧ (specOpPortion e.Op).data.getLast? ≠ some '|'
    ∧ Event.String esc { Name := e.Name, Op := Write ||| Remove }
        = some (Quote esc e.Name ++ ": " ++ "REMOVE|WRITE") := by
  refine ⟨String_eq esc e, (specOpPortion_edges e.Op).1, (specOpPortion_edges e.Op).2, ?_⟩
  rw [String_eq]
  show some (Quote esc e.Name ++ ": " ++ specOpPortion (Write ||| Remove)) = _
  rw [show specOpPortion (Write ||| Remove) = "REMOVE|WRITE" by decide]

/-- C2: when the name holds only printable ASCII characters other than the double
quote and the backslash, String returns a double quote, the name unchanged, a
double quote, a colon, one space and the operation portion; and
NewEvent(Create|Write, "/tmp/f") renders as the 22 characters
`"/tmp/f": CREATE|WRITE`. -/
theorem String_plain_name (esc : Char → Str) (e : Event) (h : PlainName e.Name) :
    Event.String esc e
      = some ("\"" ++ e.Name ++ "\"" ++ ":" ++ " " ++ specOpPortion e.Op)
    ∧ Event.String esc (NewEvent (Create ||| Write) "/tmp/f")
      = some "\"/tmp/f\": CREATE|WRITE"
    ∧ ("\"/tmp/f\": CREATE|WRITE" : Str).length = 22
    ∧ ("\"/tmp/f\": CREATE|WRITE" : Str).utf8ByteSize = 22 := by
  refine ⟨?_, ?_, by decide, by decide⟩
  · rw [String_eq, Quote_plain esc e.Name h]
    exact congrArg some (String.ext (by simp))
  · rw [String_eq]
    show some (Quote esc "/tmp/f" ++ ": " ++ specOpPortion (Create ||| Write)) = _
    rw [Quote_plain esc "/tmp/f" (by decide),
      show specOpPortion (Create ||| Write) = "CREATE|WRITE" by decide]
    decide

/-- Witness of C2: the event of the specification's example. -/
theorem String_plain_name_witness :
    PlainName (NewEvent (Chmod ||| Rename) "/tmp/f").Name
    ∧ Event.String (fun _ => "?") (NewEvent (Chmod ||| Rename) "/tmp/f")
      = some "\"/tmp/f\": RENAME|CHMOD" :=
  ⟨by decide,
   (String_plain_name (fun _ => "?") (NewEvent (Chmod ||| Rename) "/tmp/f") (by decide)).1.trans
     (by decide)⟩

/-- C7: for every event with Op = 0, String returns the quoted name, a colon and
one space and nothing after them: the operation portion is empty. -/
theorem String_no_bits (esc : Char → Str) (e : Event) (h : e.Op = 0) :
    Event.String esc e = some (Quote esc e.Name ++ ":" ++ " ")
    ∧ specOpPortion e.Op = "" := by
  have hp : specOpPortion e.Op = "" := by rw [h]; decide
  refine ⟨?_, hp⟩
  rw [String_eq, hp]
  exact congrArg some (String.ext (by simp))

/-- Witness of C7: the event of name /tmp/f with no bit set. -/
theorem String_no_bits_witness :
    (NewEvent 0 "/tmp/f").Op = 0
    ∧ Event.String (fun _ => "?") (NewEvent 0 "/tmp/f") = some "\"/tmp/f\": " :=
  ⟨rfl, (String_no_bits (fun _ => "?") (NewEvent 0 "/tmp/f") rfl).1.trans (by decide)⟩

/-- C9: Count returns the number of distinct keys of the watches registry, which
is 0 for the empty registry, and the watcher after the call is the watcher
before it. -/
theorem Count_distinct_keys {H : Type} (w : Watcher H) :
    (Watcher.Count w).1 = ((w.watches.keys.toFinset.card : Nat) : Int)
    ∧ (Watcher.Count w).1 = ((w.watches.keys.dedup.length : Nat) : Int)
    ∧ (Watcher.Count w).2 = w
    ∧ (Watcher.Count ({ watches := ∅ } : Watcher H)).1 = 0 := by
  have hlen : w.watches.keys.length = w.watches.entries.length := by
    simp [AList.keys, List.keys]
  refine ⟨?_, ?_, rfl, rfl⟩
  · rw [List.toFinset_card_of_nodup w.watches.keys_nodup, hlen]; rfl
  · rw [List.dedup_eq_self.mpr w.watches.keys_nodup, hlen]; rfl

/-- C10: Watch returns the error and the watcher that Add returns on the same
watcher and path, and RemoveWatch those that Remove returns, whatever the
platform's Add and Remove are. -/
theorem Watch_alias_of_Add {H E : Type}
    (Add Remove : Watcher H → Str → Option E × Watcher H) (w : Watcher H) (path : Str) :
    (Watcher.Watch Add w path).1 = (Add w path).1
    ∧ (Watcher.Watch Add w path).2 = (Add w path).2
    ∧ (Watcher.RemoveWatch Remove w path).1 = (Remove w path).1
    ∧ (Watcher.RemoveWatch Remove w path).2 = (Remove w path).2 :=
  ⟨rfl, rfl, rfl, rfl⟩

/-- A successful Add found the path absent and inserted it. -/
theorem Add_ok {H : Type} (Subscribe : Str → Except WatchError H) (w : Watcher H)
    (path : Str) (h : (Watcher.Add Subscribe w path).1 = none) :
    path ∉ w.watches.keys
    ∧ ∃ hd, (Watcher.Add Subscribe w path).2 = { watches := w.watches.insert path hd } := by
  unfold Watcher.Add at h ⊢
  by_cases hm : path ∈ w.watches.keys
  · rw [if_pos hm] at h; cases h
  · rw [if_neg hm] at h ⊢
    refine ⟨hm, ?_⟩
    cases hs : Subscribe path with
    | ok hd => exact ⟨hd, rfl⟩
    | error err => rw [hs] at h; cases h

/-- A successful Add makes the registry one entry longer and makes the path a key. -/
theorem Add_ok_length {H : Type} (Subscribe : Str → Except WatchError H) (w : Watcher H)
    (path : Str) (h : (Watcher.Add Subscribe w path).1 = none) :
    (Watcher.Add Subscribe w path).2.watches.entries.length = w.watches.entries.length + 1
    ∧ path ∈ (Watcher.Add Subscribe w path).2.watches.keys := by
  obtain ⟨hm, hd, heq⟩ := Add_ok Subscribe w path h
  rw [heq]
  constructor
  · show (w.watches.insert path hd).entries.length = _
    rw [AList.insert_entries_of_neg (fun hc => hm (AList.mem_keys.mp hc))]
    rfl
  · exact AList.mem_keys.mp ((AList.mem_insert w.watches).mpr (Or.inl rfl))

/-- When every call of a run of Adds succeeds, the registry grows by one entry per call. -/
theorem runAdds_length {H : Type} (Subscribe : Str → Except WatchError H) (paths : List Str) :
    ∀ w : Watcher H, (∀ r ∈ (runAdds (Watcher.Add Subscribe) w paths).1, r = none) →
      (runAdds (Watcher.Add Subscribe) w paths).2.watches.entries.length
        = w.watches.entries.length + paths.length := by
  induction paths with
  | nil => intro w _; rfl
  | cons p ps ih =>
    intro w hall
    have h1 : (Watcher.Add Subscribe w p).1 = none :=
      hall _ (List.mem_cons_self _ _)
    have hrest : ∀ r ∈ (runAdds (Watcher.Add Subscribe) (Watcher.Add Subscribe w p).2 ps).1,
        r = none := fun r hr => hall r (List.mem_cons_of_mem _ hr)
    show (runAdds (Watcher.Add Subscribe) (Watcher.Add Subscribe w p).2 ps).2.watches.entries.length
      = _
    rw [ih _ hrest, (Add_ok_length Subscribe w p h1).1, List.length_cons]
    omega

/-- When the paths are pairwise distinct and absent from the registry, and the
backend accepts each of them, every Add of the run succeeds. -/
theorem runAdds_all_ok {H : Type} (Subscribe : Str → Except WatchError H) (paths : List Str) :
    ∀ w : Watcher H, paths.Nodup → (∀ p ∈ paths, p ∉ w.watches.keys) →
      (∀ p ∈ paths, ∃ hd, Subscribe p = Except.ok hd) →
      ∀ r ∈ (runAdds (Watcher.Add Subscribe) w paths).1, r = none := by
  induction paths with
  | nil => intro w _ _ _ r hr; cases hr
  | cons p ps ih =>
    intro w hnd habs hacc r hr
    obtain ⟨hd, hsub⟩ := hacc p (List.mem_cons_self _ _)
    have hp : p ∉ w.watches.keys := habs p (List.mem_cons_self _ _)
    have hadd : Watcher.Add Subscribe w p = (none, { watches := w.watches.insert p hd }) := by
      unfold Watcher.Add
      rw [if_neg hp, hsub]
    have hr2 : r ∈ (Watcher.Add Subscribe w p).1
        :: (runAdds (Watcher.Add Subscribe) (Watcher.Add Subscribe w p).2 ps).1 := hr
    rw [List.mem_cons] at hr2
    rcases hr2 with hr2 | hr2
    · rw [hr2, hadd]
    · refine ih (Watcher.Add Subscribe w p).2 (List.nodup_cons.mp hnd).2 ?_ ?_ r hr2
      · intro q hq hk
        rw [hadd] at hk
        have hk2 : q ∈ (w.watches.insert p hd) := AList.mem_keys.mpr hk
        rcases (AList.mem_insert w.watches).mp hk2 with hqp | hqw
        · exact (List.nodup_cons.mp hnd).1 (hqp ▸ hq)
        · exact habs q (List.mem_cons_of_mem _ hq) (AList.mem_keys.mp hqw)
      · exact fun q hq => hacc q (List.mem_cons_of_mem _ hq)

/-- C11: after n successful Add calls on n pairwise distinct paths on a fresh
watcher, with no other call in between, Count returns n; the same holds when the
calls go through the alias Watch. -/
theorem Count_after_n_adds {H : Type} (Subscribe : Str → Except WatchError H)
    (paths : List Str) (hd : paths.Nodup)
    (hok : ∀ r ∈ (runAdds (Watcher.Add Subscribe) (Watcher.fresh H) paths).1, r = none) :
    (Watcher.Count (runAdds (Watcher.Add Subscribe) (Watcher.fresh H) paths).2).1
      = (paths.length : Int)
    ∧ (Watcher.Count
        (runAdds (Watcher.Watch (Watcher.Add Subscribe)) (Watcher.fresh H) paths).2).1
      = (paths.length : Int)
    ∧ (Watcher.Count (runAdds (Watcher.Add Subscribe) (Watcher.fresh H) paths).2).1
      = ((paths.toFinset.card : Nat) : Int) := by
  have hlen := runAdds_length Subscribe paths (Watcher.fresh H) hok
  have h0 : (Watcher.fresh H).watches.entries.length = 0 := rfl
  have main : (Watcher.Count (runAdds (Watcher.Add Subscribe) (Watcher.fresh H) paths).2).1
      = (paths.length : Int) := by
    show ((runAdds (Watcher.Add Subscribe) (Watcher.fresh H) paths).2.watches.entries.length
      : Int) = _
    rw [hlen, h0, Nat.zero_add]
  exact ⟨main, main, by rw [List.toFinset_card_of_nodup hd]; exact main⟩

/-- Witness of C11: three distinct paths on a backend that accepts every path. -/
theorem Count_after_n_adds_witness :
    (["/tmp/a", "/tmp/b", "/tmp/c"] : List Str).Nodup
    ∧ (runAdds (Watcher.Add (fun _ => Except.ok 7)) (Watcher.fresh Nat)
        ["/tmp/a", "/tmp/b", "/tmp/c"]).1 = [none, none, none]
    ∧ (Watcher.Count (runAdds (Watcher.Add (fun _ => Except.ok 7)) (Watcher.fresh Nat)
        ["/tmp/a", "/tmp/b", "/tmp/c"]).2).1 = 3 :=
  ⟨by decide, by decide,
   (Count_after_n_adds (fun _ => Except.ok 7) ["/tmp/a", "/tmp/b", "/tmp/c"] (by decide)
     (by decide)).1⟩

/-- C12: when a first Add of a path has succeeded, a second Add of the same path
with no Remove in between returns AlreadyWatching and leaves the watcher as it
was, through Add and through Watch alike; on a fresh watcher Count is then 1. -/
theorem second_Add_fails {H : Type} (Subscribe : Str → Except WatchError H)
    (w : Watcher H) (path : Str) (h1 : (Watcher.Add Subscribe w path).1 = none) :
    Watcher.Add Subscribe (Watcher.Add Subscribe w path).2 path
      = (some WatchError.AlreadyWatching, (Watcher.Add Subscribe w path).2)
    ∧ Watcher.Watch (Watcher.Add Subscribe) (Watcher.Add Subscribe w path).2 path
      = (some WatchError.AlreadyWatching, (Watcher.Add Subscribe w path).2)
    ∧ (Watcher.Count (Watcher.Add Subscribe (Watcher.Add Subscribe w path).2 path).2).1
      = (Watcher.Count (Watcher.Add Subscribe w path).2).1
    ∧ (w = Watcher.fresh H →
        (Watcher.Count (Watcher.Add Subscribe (Watcher.Add Subscribe w path).2 path).2).1
          = 1) := by
  have hlen := Add_ok_length Subscribe w path h1
  have hsecond : Watcher.Add Subscribe (Watcher.Add Subscribe w path).2 path
      = (some WatchError.AlreadyWatching, (Watcher.Add Subscribe w path).2) := by
    generalize Watcher.Add Subscribe w path = r at hlen
    unfold Watcher.Add
    rw [if_pos hlen.2]
  refine ⟨hsecond, hsecond, by rw [hsecond], ?_⟩
  intro hw
  rw [hsecond]
  show (((Watcher.Add Subscribe w path).2.watches.entries.length : Nat) : Int) = 1
  rw [hlen.1, hw]
  rfl

/-- Witness of C12: the path /tmp/a added twice to a fresh watcher. -/
theorem second_Add_fails_witness :
    (Watcher.Add (fun _ => Except.ok 7) (Watcher.fresh Nat) "/tmp/a").1 = none
    ∧ (Watcher.Add (fun _ => Except.ok 7)
        (Watcher.Add (fun _ => Except.ok 7) (Watcher.fresh Nat) "/tmp/a").2 "/tmp/a").1
      = some WatchError.AlreadyWatching
    ∧ (Watcher.Count (Watcher.Add (fun _ => Except.ok 7)
        (Watcher.Add (fun _ => Except.ok 7) (Watcher.fresh Nat) "/tmp/a").2 "/tmp/a").2).1
      = 1 :=
  ⟨by decide,
   congrArg Prod.fst
     (second_Add_fails (fun _ => Except.ok 7) (Watcher.fresh Nat) "/tmp/a" (by decide)).1,
   (second_Add_fails (fun _ => Except.ok 7) (Watcher.fresh Nat) "/tmp/a"
     (by decide)).2.2.2 rfl⟩

/-- The spec-side portion is the portion of the five bits. -/
theorem specOpPortion_bits (op : Op) :
    specOpPortion op
      = portionOfBits (op.testBit 0) (op.testBit 2) (op.testBit 1) (op.testBit 3)
          (op.testBit 4) := by
  unfold specOpPortion opTable portionOfBits
  simp only [List.filter, Create_eq, Write_eq, Remove_eq, Rename_eq, Chmod_eq, bitSet_const]
  cases op.testBit 0 <;> cases op.testBit 1 <;> cases op.testBit 2 <;>
    cases op.testBit 3 <;> cases op.testBit 4 <;> rfl

/-- Different bits give different portions. -/
theorem portionOfBits_injective :
    ∀ c r w n m c2 r2 w2 n2 m2 : Bool,
      portionOfBits c r w n m = portionOfBits c2 r2 w2 n2 m2 →
        c = c2 ∧ r = r2 ∧ w = w2 ∧ n = n2 ∧ m = m2 := by
  decide

/-- Two masks agree on the five defined bits exactly when their ANDs with 31 agree. -/
theorem and_31_eq_iff (a b : Nat) :
    a &&& 31 = b &&& 31 ↔
      (a.testBit 0 = b.testBit 0 ∧ a.testBit 2 = b.testBit 2 ∧ a.testBit 1 = b.testBit 1
        ∧ a.testBit 3 = b.testBit 3 ∧ a.testBit 4 = b.testBit 4) := by
  have h31 : (31 : Nat) = 2 ^ 5 - 1 := by decide
  constructor
  · intro h
    have key : ∀ i, i < 5 → a.testBit i = b.testBit i := by
      intro i hi
      have := congrArg (fun x => x.testBit i) h
      simp only [Nat.testBit_and, h31, Nat.testBit_two_pow_sub_one, hi, decide_True,
        Bool.and_true] at this
      exact this
    exact ⟨key 0 (by decide), key 2 (by decide), key 1 (by decide), key 3 (by decide),
      key 4 (by decide)⟩
  · rintro ⟨h0, h2, h1, h3, h4⟩
    apply Nat.eq_of_testBit_eq
    intro i
    rw [Nat.testBit_and, Nat.testBit_and, h31, Nat.testBit_two_pow_sub_one]
    by_cases hi : i < 5
    · have : i = 0 ∨ i = 1 ∨ i = 2 ∨ i = 3 ∨ i = 4 := by omega
      rcases this with rfl | rfl | rfl | rfl | rfl
      · rw [h0]
      · rw [h1]
      · rw [h2]
      · rw [h3]
      · rw [h4]
    · simp [hi]

/-- C14: for one name and two masks, the renderings are equal exactly when the
masks agree on the five defined bits, that is when a AND 31 equals b AND 31; so
a bit outside the five never changes the rendering. -/
theorem String_eq_iff_defined_bits (esc : Char → Str) (n : Str) (a b : Op) :
    (Event.String esc { Name := n, Op := a } = Event.String esc { Name := n, Op := b }
      ↔ a &&& 31 = b &&& 31)
    ∧ Event.String esc { Name := n, Op := a }
        = Event.String esc { Name := n, Op := a &&& 31 } := by
  have main : ∀ x y : Op,
      (Event.String esc { Name := n, Op := x } = Event.String esc { Name := n, Op := y }
        ↔ x &&& 31 = y &&& 31) := by
    intro x y
    rw [String_eq, String_eq, and_31_eq_iff]
    show some (Quote esc n ++ ": " ++ specOpPortion x)
        = some (Quote esc n ++ ": " ++ specOpPortion y) ↔ _
    rw [specOpPortion_bits x, specOpPortion_bits y]
    constructor
    · intro h
      have hd := congrArg String.data (Option.some.inj h)
      rw [String.data_append, String.data_append] at hd
      exact portionOfBits_injective _ _ _ _ _ _ _ _ _ _
        (String.ext (List.append_cancel_left hd))
    · rintro ⟨h0, h2, h1, h3, h4⟩
      rw [h0, h2, h1, h3, h4]
  refine ⟨main a b, (main a (a &&& 31)).mpr ?_⟩
  rw [Nat.and_assoc]
  rfl

/-- The five single-bit predicates are the five bit tests. -/
theorem predicates_eq_testBit (e : Event) :
    e.IsCreate = e.Op.testBit 0 ∧ e.IsWrite = e.Op.testBit 1 ∧ e.IsDelete = e.Op.testBit 2
    ∧ e.IsRename = e.Op.testBit 3 ∧ e.IsChmod = e.Op.testBit 4 := by
  unfold Event.IsCreate Event.IsWrite Event.IsDelete Event.IsRename Event.IsChmod
  rw [Create_eq, Write_eq, Remove_eq, Rename_eq, Chmod_eq]
  exact ⟨pred_eq_testBit _ 0, pred_eq_testBit _ 1, pred_eq_testBit _ 2, pred_eq_testBit _ 3,
    pred_eq_testBit _ 4⟩

/-- C16: each of the six predicates on NewEvent(a|b, n) is the disjunction of its
values on NewEvent(a, n) and NewEvent(b, n), and each is false on NewEvent(0, n);
hence a predicate true on a mask stays true when further bits are set. -/
theorem predicates_distribute_over_or (n : Str) (a b : Op) :
    ((NewEvent (a ||| b) n).IsCreate = ((NewEvent a n).IsCreate || (NewEvent b n).IsCreate))
    ∧ ((NewEvent (a ||| b) n).IsWrite = ((NewEvent a n).IsWrite || (NewEvent b n).IsWrite))
    ∧ ((NewEvent (a ||| b) n).IsDelete = ((NewEvent a n).IsDelete || (NewEvent b n).IsDelete))
    ∧ ((NewEvent (a ||| b) n).IsRename = ((NewEvent a n).IsRename || (NewEvent b n).IsRename))
    ∧ ((NewEvent (a ||| b) n).IsChmod = ((NewEvent a n).IsChmod || (NewEvent b n).IsChmod))
    ∧ ((NewEvent (a ||| b) n).IsModify = ((NewEvent a n).IsModify || (NewEvent b n).IsModify))
    ∧ ((NewEvent 0 n).IsCreate = false ∧ (NewEvent 0 n).IsWrite = false
        ∧ (NewEvent 0 n).IsDelete = false ∧ (NewEvent 0 n).IsRename = false
        ∧ (NewEvent 0 n).IsChmod = false ∧ (NewEvent 0 n).IsModify = false)
    ∧ ((NewEvent a n).IsCreate = true → (NewEvent (a ||| b) n).IsCreate = true)
    ∧ ((NewEvent a n).IsWrite = true → (NewEvent (a ||| b) n).IsWrite = true)
    ∧ ((NewEvent a n).IsDelete = true → (NewEvent (a ||| b) n).IsDelete = true)
    ∧ ((NewEvent a n).IsRename = true → (NewEvent (a ||| b) n).IsRename = true)
    ∧ ((NewEvent a n).IsChmod = true → (NewEvent (a ||| b) n).IsChmod = true)
    ∧ ((NewEvent a n).IsModify = true → (NewEvent (a ||| b) n).IsModify = true) := by
  have hor : ∀ k, (a ||| b).testBit k = (a.testBit k || b.testBit k) :=
    fun k => Nat.testBit_or a b k
  have hz : ∀ k, (0 : Nat).testBit k = false := fun k => Nat.zero_testBit k
  have hop : ∀ x : Op, (NewEvent x n).Op = x := fun _ => rfl
  have pa := predicates_eq_testBit (NewEvent a n)
  have pb := predicates_eq_testBit (NewEvent b n)
  have pab := predicates_eq_testBit (NewEvent (a ||| b) n)
  have p0 := predicates_eq_testBit (NewEvent 0 n)
  have ma := IsModify_eq (NewEvent a n)
  have mb := IsModify_eq (NewEvent b n)
  have mab := IsModify_eq (NewEvent (a ||| b) n)
  have m0 := IsModify_eq (NewEvent 0 n)
  simp only [hop] at pa pb pab p0 ma mb mab m0
  obtain ⟨a0, a1, a2, a3, a4⟩ := pa
  obtain ⟨b0, b1, b2, b3, b4⟩ := pb
  obtain ⟨c0, c1, c2, c3, c4⟩ := pab
  obtain ⟨z0, z1, z2, z3, z4⟩ := p0
  rw [a0, a1, a2, a3, a4, b0, b1, b2, b3, b4, c0, c1, c2, c3, c4, z0, z1, z2, z3, z4, ma, mb,
    mab, m0]
  simp only [hor, hz]
  cases a.testBit 0 <;> cases a.testBit 1 <;> cases a.testBit 2 <;> cases a.testBit 3 <;>
    cases a.testBit 4 <;> cases b.testBit 0 <;> cases b.testBit 1 <;> cases b.testBit 2 <;>
    cases b.testBit 3 <;> cases b.testBit 4 <;> decide

/-- Witness of C16: IsDelete is true on Remove and stays true on Remove|Create. -/
theorem predicates_distribute_over_or_witness :
    (NewEvent Remove "/tmp/f").IsDelete = true
    ∧ (NewEvent (Remove ||| Create) "/tmp/f").IsDelete = true :=
  ⟨by decide,
   (predicates_distribute_over_or "/tmp/f" Remove Create).2.2.2.2.2.2.2.2.2.1 (by decide)⟩

/-- The accumulated string is either empty, with an empty portion, or a `|`
followed by the portion, in which case the slice at 1 is in range and returns
the portion. -/
theorem accumulated_cases (e : Event) :
    (e.accumulated = "" ∧ specOpPortion e.Op = "")
    ∨ (e.accumulated.utf8ByteSize > 0 ∧ e.accumulated = "|" ++ specOpPortion e.Op
        ∧ sliceFrom e.accumulated 1 = some (specOpPortion e.Op)) := by
  unfold Event.accumulated specOpPortion opTable
  simp only [List.filter, Create_eq, Write_eq, Remove_eq, Rename_eq, Chmod_eq, beq_const,
    bitSet_const]
  cases e.Op.testBit 0 <;> cases e.Op.testBit 1 <;> cases e.Op.testBit 2 <;>
    cases e.Op.testBit 3 <;> cases e.Op.testBit 4 <;> decide

/-- The method is its first part followed by its second part. -/
theorem String_eq_finish (esc : Char → Str) (e : Event) :
    Event.String esc e = Event.finish esc e e.accumulated := by
  unfold Event.String Event.finish Event.accumulated
  simp only [Create_eq, Write_eq, Remove_eq, Rename_eq, Chmod_eq, beq_const]
  cases e.Op.testBit 0 <;> cases e.Op.testBit 1 <;> cases e.Op.testBit 2 <;>
    cases e.Op.testBit 3 <;> cases e.Op.testBit 4 <;> rfl

/-- C17: String returns a value for every event; the slice `events[1:]` is taken
only when the accumulated string is not empty, where the offset 1 is within its
length, the slice succeeds, and what it drops is the leading `|`: the
accumulated string is `|` followed by the result of the slice, which is the
operation portion with every operation name whole. -/
theorem String_slice_safe (esc : Char → Str) (e : Event) :
    Event.String esc e = Event.finish esc e e.accumulated
    ∧ (∃ s, Event.String esc e = some s)
    ∧ (e.accumulated.utf8ByteSize > 0 →
        1 ≤ e.accumulated.utf8ByteSize
        ∧ e.accumulated.data.head? = some '|'
        ∧ sliceFrom e.accumulated 1 = some (specOpPortion e.Op)
        ∧ e.accumulated = "|" ++ specOpPortion e.Op)
    ∧ (¬ e.accumulated.utf8ByteSize > 0 →
        e.accumulated = "" ∧ Event.finish esc e e.accumulated = some (Sprintf esc e.Name "")) := by
  refine ⟨String_eq_finish esc e, ⟨_, String_eq esc e⟩, ?_, ?_⟩
  · intro hpos
    rcases accumulated_cases e with ⟨h0, _⟩ | ⟨_, hacc, hslice⟩
    · rw [h0] at hpos; exact absurd hpos (by decide)
    · refine ⟨hpos, ?_, hslice, hacc⟩
      rw [hacc, String.data_append]
      rfl
  · intro hnot
    rcases accumulated_cases e with ⟨h0, _⟩ | ⟨hpos, _, _⟩
    · refine ⟨h0, ?_⟩
      rw [h0]
      rfl
    · exact absurd hpos hnot

/-- Witness of C17: the event of mask Write|Remove, whose accumulated string is
`|REMOVE|WRITE`. -/
theorem String_slice_safe_witness :
    (Event.accumulated { Name := "/tmp/f", Op := Write ||| Remove }).utf8ByteSize > 0
    ∧ sliceFrom (Event.accumulated { Name := "/tmp/f", Op := Write ||| Remove }) 1
        = some "REMOVE|WRITE" :=
  ⟨by decide,
   ((String_slice_safe (fun _ => "?") { Name := "/tmp/f", Op := Write ||| Remove }).2.2.1
     (by decide)).2.2.1.trans (by decide)⟩

/-- The operation portion cut out of the rendering is the spec-side portion. -/
theorem operationPortion_eq (esc : Char → Str) (e : Event) :
    Event.operationPortion esc e = some (specOpPortion e.Op) := by
  unfold Event.operationPortion
  rw [String_eq, Option.map_some', String.drop_eq]
  refine congrArg some (String.ext ?_)
  show List.drop ((Quote esc e.Name).length + 2)
    (Quote esc e.Name ++ ": " ++ specOpPortion e.Op).data = _
  rw [String.data_append, String.data_append]
  exact List.drop_left' (by rw [List.length_append]; rfl)

/-- The tokens are the split of the portion of the five bits. -/
theorem tokens_eq (esc : Char → Str) (e : Event) :
    Event.tokens esc e
      = some (Split (portionOfBits (e.Op.testBit 0) (e.Op.testBit 2) (e.Op.testBit 1)
          (e.Op.testBit 3) (e.Op.testBit 4)) '|') := by
  unfold Event.tokens
  rw [operationPortion_eq, specOpPortion_bits]
  rfl

/-- The agreement, on the five bits, when at least one of them is set. -/
theorem split_portionOfBits :
    ∀ c r w n m : Bool, (c || r || w || n || m) = true →
      ("CREATE" ∈ Split (portionOfBits c r w n m) '|' ↔ c = true)
      ∧ ("REMOVE" ∈ Split (portionOfBits c r w n m) '|' ↔ r = true)
      ∧ ("WRITE" ∈ Split (portionOfBits c r w n m) '|' ↔ w = true)
      ∧ ("RENAME" ∈ Split (portionOfBits c r w n m) '|' ↔ n = true)
      ∧ ("CHMOD" ∈ Split (portionOfBits c r w n m) '|' ↔ m = true)
      ∧ (∀ t ∈ Split (portionOfBits c r w n m) '|',
          t ∈ ["CREATE", "REMOVE", "WRITE", "RENAME", "CHMOD"])
      ∧ (Split (portionOfBits c r w n m) '|').Nodup
      ∧ (Split (portionOfBits c r w n m) '|').length = [c, r, w, n, m].count true := by
  decide

/-- No defined bit is set exactly when the five bit tests are all false. -/
theorem and_31_eq_zero_iff (op : Nat) :
    op &&& 31 = 0 ↔
      (op.testBit 0 || op.testBit 2 || op.testBit 1 || op.testBit 3 || op.testBit 4) = false := by
  have h := and_31_eq_iff op 0
  rw [show (0 : Nat) &&& 31 = 0 by decide] at h
  rw [h]
  simp only [Nat.zero_testBit]
  cases op.testBit 0 <;> cases op.testBit 1 <;> cases op.testBit 2 <;>
    cases op.testBit 3 <;> cases op.testBit 4 <;> decide

/-- Counterexample to C15 as stated: with no bit set the operation portion is
empty, its split is the single empty token, and no predicate is true, so the
tokens are neither all operation names nor as many as the true predicates. -/
theorem tokensAgree_fails_at_zero :
    Event.String (fun _ => "?") { Name := "/tmp/f", Op := 0 } = some "\"/tmp/f\": "
    ∧ Event.tokens (fun _ => "?") { Name := "/tmp/f", Op := 0 } = some [""]
    ∧ truePredicates { Name := "/tmp/f", Op := 0 } = 0
    ∧ ¬ tokensAgree (fun _ => "?") { Name := "/tmp/f", Op := 0 } := by
  have ht : Event.tokens (fun _ => "?") { Name := "/tmp/f", Op := 0 } = some [""] := by
    decide
  refine ⟨by decide, ht, by decide, ?_⟩
  rintro ⟨toks, htoks, _, _, _, _, _, _, _, hlen⟩
  rw [ht] at htoks
  cases htoks
  revert hlen
  decide

/-- C15, amended: for every event with at least one of the five defined bits set,
the tokens of the operation portion split at `|` agree with the predicates:
each name is a token exactly when its predicate is true, no other token occurs,
none occurs twice, and there are as many tokens as true predicates.  With none
of the five bits set the operation portion is empty, its split is the single
empty token, and no predicate is true. -/
theorem tokens_agree_with_predicates (esc : Char → Str) (e : Event) :
    (e.Op &&& 31 ≠ 0 → tokensAgree esc e)
    ∧ (e.Op &&& 31 = 0 → Event.tokens esc e = some [""] ∧ truePredicates e = 0) := by
  obtain ⟨p0, p1, p2, p3, p4⟩ := predicates_eq_testBit e
  have htp : truePredicates e
      = [e.Op.testBit 0, e.Op.testBit 2, e.Op.testBit 1, e.Op.testBit 3,
          e.Op.testBit 4].count true := by
    unfold truePredicates
    rw [p0, p1, p2, p3, p4]
  constructor
  · intro hne
    have hbits : (e.Op.testBit 0 || e.Op.testBit 2 || e.Op.testBit 1 || e.Op.testBit 3
        || e.Op.testBit 4) = true := by
      rw [← Bool.not_eq_false]
      exact fun hf => hne ((and_31_eq_zero_iff e.Op).mpr hf)
    refine ⟨_, tokens_eq esc e, ?_⟩
    rw [p0, p1, p2, p3, p4, htp]
    exact split_portionOfBits _ _ _ _ _ hbits
  · intro hz
    have hbits := (and_31_eq_zero_iff e.Op).mp hz
    rw [tokens_eq, htp]
    revert hbits
    cases e.Op.testBit 0 <;> cases e.Op.testBit 1 <;> cases e.Op.testBit 2 <;>
      cases e.Op.testBit 3 <;> cases e.Op.testBit 4 <;> decide

/-- Witness of C15 as amended: the event of mask Write|Remove, whose tokens are
REMOVE and WRITE. -/
theorem tokens_agree_with_predicates_witness :
    (Write ||| Remove) &&& 31 ≠ 0
    ∧ tokensAgree (fun _ => "?") { Name := "/tmp/f", Op := Write ||| Remove } :=
  ⟨by decide,
   (tokens_agree_with_predicates (fun _ => "?") { Name := "/tmp/f", Op := Write ||| Remove }).1
     (by decide)⟩
